import Mathlib

/-!
# Verification of the go-badminton court-booking core

Shallow embedding of the booking logic of the `go-badminton` repository:

* `startTimeFromLabel` — slot-key codec
  (`src/app/components/booking/bookingHelpers.tsx`, duplicated in
  `src/app/components/highlight/BookingCard.tsx`);
* `getDayType`, `getPricePerCourt` — time/price rules
  (the Counter utils bundled in `src/app/components/Footer.tsx`);
* `loadBookingsRaw`, `loadBookedSetForDate`, `cleanupExpiredBookings` —
  booking store (`src/app/components/booking/bookingStorage.tsx`);
* the `BookingCard` form state machine with `toggleTime`, `toggleCourt`,
  `handleSubmit` (`src/app/components/highlight/BookingCard.tsx`).

Modelling conventions:
* JS strings are Lean `String`s; `s.replace(pat, rep)` (first occurrence
  only) is `jsReplaceFirst`; `s.startsWith(p)` is `jsStartsWith`.
* The JSON object holding the ledger is an association list
  `List (String × List BookingRecord)` whose keys are unique (a JS object
  cannot repeat a key); `raw[d]` is `ledgerLookup`, `raw[d] = v` is
  `updateLedger`.
* `Date.now()` timestamps are `Int` epoch milliseconds.
* The `typeof window === "undefined"` server-side-rendering guards are
  outside the model: the model is the in-browser behaviour.
* `localStorage` round-tripping (`JSON.parse ∘ JSON.stringify = id`) is
  abstracted: the workflow state carries the ledger value itself, while the
  raw-slot layer (`loadBookingsRaw`) is modelled separately over an
  `Option String` slot and a parse function.
-/

/-! ## JS string primitives -/

/-- First-occurrence replacement on character lists: the semantics of the
JavaScript `String.prototype.replace` with a plain-string pattern. -/
def replaceFirstAux (pat rep : List Char) : List Char → List Char
  | [] => []
  | x :: xs =>
    if pat.isPrefixOf (x :: xs) then rep ++ (x :: xs).drop pat.length
    else x :: replaceFirstAux pat rep xs

/-- JavaScript `s.replace(pat, rep)`: replaces only the first occurrence. -/
def jsReplaceFirst (s pat rep : String) : String :=
  ⟨replaceFirstAux pat.data rep.data s.data⟩

/-- JavaScript `s.startsWith(p)`. -/
def jsStartsWith (s pre : String) : Bool :=
  pre.data.isPrefixOf s.data

/-- The characters before the first occurrence of `pat`, or the whole list
when `pat` does not occur: the semantics of `s.split(pat)[0]` in JavaScript
(for a non-empty `pat`). -/
def splitFirstAux (pat : List Char) : List Char → List Char
  | [] => []
  | x :: xs =>
    if pat.isPrefixOf (x :: xs) then [] else x :: splitFirstAux pat xs

/-- JavaScript `s.split(pat)[0]`. -/
def jsSplitFirst (s pat : String) : String :=
  ⟨splitFirstAux pat.data s.data⟩

/-- JavaScript `s.trim()`: strip whitespace from both ends. -/
def jsTrim (s : String) : String :=
  ⟨((s.data.dropWhile Char.isWhitespace).reverse.dropWhile
      Char.isWhitespace).reverse⟩

/-- `true` iff `pat` occurs somewhere in the list: the semantics of
JavaScript `s.includes(pat)`. -/
def containsSub (pat : List Char) : List Char → Bool
  | [] => pat.isEmpty
  | x :: xs => pat.isPrefixOf (x :: xs) || containsSub pat xs

/-- JavaScript `s.includes(pat)` — used only to state "the label contains
the `\" - \"` separator", i.e. validity of a time-range label. -/
def jsIncludes (s pat : String) : Bool :=
  containsSub pat.data s.data

/-! ## Slot Key Codec (`bookingHelpers.tsx` / `BookingCard.tsx`) -/

/-- `startTimeFromLabel` from `bookingHelpers.tsx` (lines 24–30): take the
part before `" - "`, trim it, turn the first `.` into `:`, and rewrite a
leading `24:` to `00:`. -/
def startTimeFromLabel (label : String) : String :=
  let start := jsTrim (jsSplitFirst label " - ")
  let hourMin := jsReplaceFirst start "." ":"
  if jsStartsWith hourMin "24:" then jsReplaceFirst hourMin "24:" "00:"
  else if hourMin = "24:00" then "00:00"
  else hourMin

/-- The composite slot key `` `${start}|${courtId}` `` built inside
`isSlotBooked` and `handleSubmit` in `BookingCard.tsx`. -/
def mkKey (timeLabel courtId : String) : String :=
  startTimeFromLabel timeLabel ++ "|" ++ courtId

example : startTimeFromLabel "08.00 - 09.00" = "08:00" := by decide
example : startTimeFromLabel "24.00 - 03.00" = "00:00" := by decide
example : startTimeFromLabel "06:00 - 07:00" = "06:00" := by decide
example : mkKey "08.00 - 09.00" "1" = "08:00|1" := by decide

/-! ## Time/Price Rules (Counter utils, bundled in `Footer.tsx`) -/

/-- Gregorian leap-year test. -/
def isLeapYear (y : Nat) : Bool :=
  y % 4 = 0 && (y % 100 ≠ 0 || y % 400 = 0)

/-- Days in the months strictly before month `m` (1-based) of a year. -/
def daysBeforeMonth (leap : Bool) (m : Nat) : Nat :=
  let lens : List Nat :=
    [31, if leap then 29 else 28, 31, 30, 31, 30, 31, 31, 30, 31, 30, 31]
  (lens.take (m - 1)).sum

/-- Days from 1970-01-01 to the civil date `y-m-d` (for `y ≥ 1970`). -/
def daysFromEpoch (y m d : Nat) : Nat :=
  (List.range (y - 1970)).foldl
      (fun acc i => acc + (if isLeapYear (1970 + i) then 366 else 365)) 0
    + daysBeforeMonth (isLeapYear y) m + (d - 1)

/-- Day of week of `y-m-d` (0 = Sunday … 6 = Saturday), the value of
`new Date("y-m-d").getDay()` at UTC; 1970-01-01 was a Thursday (4).
Modelled for dates from 1970 on (the only dates the widget handles). -/
def dayOfWeek (y m d : Nat) : Nat :=
  (4 + daysFromEpoch y m d) % 7

/-- Split a character list at every occurrence of the separator `sep`. -/
def splitOnChar (sep : Char) : List Char → List (List Char)
  | [] => [[]]
  | x :: xs =>
    let rest := splitOnChar sep xs
    if x = sep then [] :: rest
    else
      match rest with
      | [] => [[x]]
      | r :: rs => (x :: r) :: rs

/-- Parse a non-empty all-digit character list as a decimal `Nat`. -/
def parseNatDigits (cs : List Char) : Option Nat :=
  if cs = [] || !cs.all Char.isDigit then none
  else some (cs.foldl (fun acc c => acc * 10 + (c.toNat - 48)) 0)

/-- Parse a `"YYYY-MM-DD"` date-input value into `(y, m, d)`; `none` for
anything the ISO parser of `new Date` would reject as invalid. -/
def parseYMD (s : String) : Option (Nat × Nat × Nat) :=
  match (splitOnChar '-' s.data).map parseNatDigits with
  | [some y, some m, some d] =>
    if 1 ≤ m ∧ m ≤ 12 ∧ 1 ≤ d ∧ d ≤ 31 then some (y, m, d) else none
  | _ => none

/-- `getDayType` from the Counter utils (`Footer.tsx` lines 62–67): empty
date ⇒ `"weekday"`; Sunday (0) and Saturday (6) ⇒ `"weekend"`; anything
else — including an unparseable date, whose `getDay()` is `NaN` in JS and
so matches neither 0 nor 6 — ⇒ `"weekday"`. -/
def getDayType (dateStr : String) : String :=
  if dateStr = "" then "weekday"
  else
    match parseYMD dateStr with
    | none => "weekday"
    | some (y, m, d) =>
      if dayOfWeek y m d = 0 ∨ dayOfWeek y m d = 6 then "weekend"
      else "weekday"

/-- The morning price catalog local to `getPricePerCourt`
(`Footer.tsx` lines 84–95). -/
def morning : List String :=
  ["08.00 - 09.00", "09.00 - 10.00", "10.00 - 11.00", "11.00 - 12.00",
   "12.00 - 13.00", "13.00 - 14.00", "14.00 - 15.00", "15.00 - 16.00",
   "16.00 - 17.00", "17.00 - 18.00"]

/-- The night price catalog local to `getPricePerCourt`
(`Footer.tsx` lines 96–101). -/
def night : List String :=
  ["18.00 - 21.00", "21.00 - 24.00", "24.00 - 03.00", "03.00 - 06.00"]

/-- `getPricePerCourt` (`Footer.tsx` lines 83–106): morning slots cost
50000/60000 (weekday/weekend) per hour, night packages 180000/200000, and
any label in neither catalog prices at 0. -/
def getPricePerCourt (dayType time : String) : Nat :=
  if time ∈ morning then (if dayType = "weekday" then 50000 else 60000)
  else if time ∈ night then (if dayType = "weekday" then 180000 else 200000)
  else 0

example : getDayType "2025-11-19" = "weekday" := by decide
example : getDayType "2025-11-22" = "weekend" := by decide
example : getDayType "" = "weekday" := by decide
example : getPricePerCourt "weekday" "08.00 - 09.00" = 50000 := by decide
example : getPricePerCourt "weekend" "18.00 - 21.00" = 200000 := by decide
example : getPricePerCourt "weekday" "08:00 - 09:00" = 0 := by decide

/-! ## Booking Store (`bookingStorage.tsx`) -/

/-- One persisted booking entry `{ key, timestamp }` (§6 of the design):
`key` is the canonical slot key, `timestamp` the creation epoch-ms. -/
structure BookingRecord where
  key : String
  timestamp : Int
deriving DecidableEq, Repr

/-- The persisted ledger: the JSON object mapping a `"YYYY-MM-DD"` date to
its bucket of records, as an association list with unique keys. -/
abbrev BookingLedger := List (String × List BookingRecord)

/-- JS property read `raw[dateStr]` on the ledger object (`undefined`,
i.e. `none`, when the date has no bucket). -/
def ledgerLookup : BookingLedger → String → Option (List BookingRecord)
  | [], _ => none
  | (k, v) :: rest, d => if k = d then some v else ledgerLookup rest d

/-- JS property write `raw[dateStr] = bucket`: overwrite an existing key,
or append a new key at the end (JS objects keep insertion order). -/
def updateLedger : BookingLedger → String → List BookingRecord → BookingLedger
  | [], d, bs => [(d, bs)]
  | (k, v) :: rest, d, bs =>
    if k = d then (d, bs) :: rest else (k, v) :: updateLedger rest d bs

/-- `loadBookingsRaw` (`bookingStorage.tsx` lines 19–28) over an abstract
durable slot: `none` models an absent `localStorage` item (and the empty
string is falsy in JS, so it also yields `{}`); `parse` models
`JSON.parse`, with `none` standing for a thrown parse error, which the
`catch` turns into `{}`. -/
def loadBookingsRaw (slot : Option String)
    (parse : String → Option BookingLedger) : BookingLedger :=
  match slot with
  | none => []
  | some raw =>
    if raw = "" then []
    else
      match parse raw with
      | none => []
      | some ledger => ledger

/-- `loadBookedSetForDate` (`bookingStorage.tsx` lines 53–58) projected on
an already-loaded ledger: the set of slot keys of the date's bucket, empty
for an empty date argument or an absent bucket.  The JS `Set` is modelled
as the list of keys (membership is all the callers use). -/
def loadBookedSetForDate (dateStr : String) (ledger : BookingLedger) :
    List String :=
  if dateStr = "" then []
  else ((ledgerLookup ledger dateStr).getD []).map (fun b => b.key)

/-- `loadBookedSetForDate` as in the source, reading through
`loadBookingsRaw` from the raw slot. -/
def loadBookedSetForDateRaw (slot : Option String)
    (parse : String → Option BookingLedger) (dateStr : String) :
    List String :=
  loadBookedSetForDate dateStr (loadBookingsRaw slot parse)

/-- The record-retention test of the cleanup filter:
`now - (b.timestamp || 0) < maxAgeMs`.  (`b.timestamp || 0` collapses a
zero timestamp to 0, which is the identity on an always-present numeric
field.) -/
def recordFresh (now maxAgeMs : Int) (b : BookingRecord) : Bool :=
  now - b.timestamp < maxAgeMs

/-- The sweep of `cleanupExpiredBookings` (`bookingStorage.tsx` lines
67–84), with the hard-coded two-hour window exposed as `maxAgeMs` (§4.3's
`sweepExpired(maxAgeMs)`).  Returns the updated ledger together with the
`changed` flag; the source calls `saveBookingsRaw` exactly when the flag
is true. -/
def sweepExpired (maxAgeMs now : Int) (data : BookingLedger) :
    BookingLedger × Bool :=
  let results := data.map (fun kv =>
    let filtered := kv.2.filter (recordFresh now maxAgeMs)
    if filtered.length = kv.2.length then (kv, false)
    else ((kv.1, filtered), true))
  (results.map Prod.fst, results.any Prod.snd)

/-- The 2-hour expiration window of `cleanupExpiredBookings`:
`2 * 60 * 60 * 1000` ms. -/
def TWO_HOURS_MS : Int := 2 * 60 * 60 * 1000

/-- `cleanupExpiredBookings` as in `bookingStorage.tsx` /
`BookingCard.tsx`: the sweep at the fixed two-hour window. -/
def cleanupExpiredBookings (now : Int) (data : BookingLedger) :
    BookingLedger × Bool :=
  sweepExpired TWO_HOURS_MS now data

/-- The persisted ledger after `cleanupExpiredBookings` ran: the swept
value when it saved, the untouched one when it did not. -/
def sweepLedger (now : Int) (data : BookingLedger) : BookingLedger :=
  let r := cleanupExpiredBookings now data
  if r.2 then r.1 else data

example :
    sweepExpired 100 250 [("2025-11-19", [⟨"08:00|1", 100⟩, ⟨"09:00|1", 200⟩])]
      = ([("2025-11-19", [⟨"09:00|1", 200⟩])], true) := by decide
example :
    sweepExpired 100 250 [("2025-11-19", [⟨"08:00|1", 200⟩])]
      = ([("2025-11-19", [⟨"08:00|1", 200⟩])], false) := by decide

/-! ## Booking Workflow (`BookingCard.tsx`) -/

/-- Morning time-slot catalog of `BookingCard.tsx` (lines 21–34).  Note the
first two labels use `:` while the rest use `.`. -/
def timesMorning : List String :=
  ["06:00 - 07:00", "07:00 - 08:00", "08.00 - 09.00", "09.00 - 10.00",
   "10.00 - 11.00", "11.00 - 12.00", "12.00 - 13.00", "13.00 - 14.00",
   "14.00 - 15.00", "15.00 - 16.00", "16.00 - 17.00", "17.00 - 18.00"]

/-- Night time-slot catalog of `BookingCard.tsx` (lines 40–45). -/
def timesNight : List String :=
  ["18.00 - 21.00", "21.00 - 24.00", "24.00 - 03.00", "03.00 - 06.00"]

/-- The full selectable time catalog the two `TimeSelector`s offer. -/
def timesAll : List String := timesMorning ++ timesNight

/-- The fixed court identifiers (`BookingCard.tsx` line 51). -/
def courts : List String := ["1", "2", "3", "4", "5", "6"]

/-- The live state of the `BookingCard` component: its five `useState`
hooks plus the durable ledger behind `localStorage` (see the module
comment on the storage abstraction). -/
structure CardState where
  date : String
  courtCount : Nat
  selectedTimes : List String
  selectedCourts : List String
  bookedSet : List String
  ledger : BookingLedger
deriving DecidableEq

/-- `isSlotBooked` (`BookingCard.tsx` lines 168–175): key membership in
the in-memory availability cache. -/
def isSlotBooked (st : CardState) (timeLabel courtId : String) : Bool :=
  mkKey timeLabel courtId ∈ st.bookedSet

/-- The updater of `toggleTime` (`BookingCard.tsx` lines 162–166):
deselect a selected label (removing every occurrence, as `filter` does),
else append it. -/
def toggleTimeList (prev : List String) (time : String) : List String :=
  if time ∈ prev then prev.filter (fun t => t ≠ time) else prev ++ [time]

/-- The updater of `toggleCourt` (`BookingCard.tsx` lines 177–195):
deselect unconditionally; refuse a new court at capacity; refuse a new
court booked for any selected time (the alerted collision); else append. -/
def toggleCourtList (st : CardState) (courtId : String) : List String :=
  let prev := st.selectedCourts
  if courtId ∈ prev then prev.filter (fun c => c ≠ courtId)
  else if st.courtCount ≤ prev.length then prev
  else if st.selectedTimes.any (fun t => isSlotBooked st t courtId) then prev
  else prev ++ [courtId]

/-- The `total` memo (`BookingCard.tsx` lines 199–204):
`Σ getPricePerCourt(dayType, time) × |selectedCourts|` over the selected
times. -/
def total (st : CardState) : Nat :=
  st.selectedTimes.foldl
    (fun sum time =>
      sum + getPricePerCourt (getDayType st.date) time
              * st.selectedCourts.length) 0

/-- The records pushed by the submit loops (`BookingCard.tsx` lines
226–232): one per `(time, court)` pair, outer loop over times, all with
the same `now`. -/
def submitRecords (times courtsSel : List String) (now : Int) :
    List BookingRecord :=
  times.flatMap (fun t => courtsSel.map (fun c => ⟨mkKey t c, now⟩))

/-- The conflict scan of `handleSubmit` (`BookingCard.tsx` lines 214–224):
the first `(time, court)` pair whose key is already in the date's bucket,
in loop order (times outer, courts inner). -/
def findConflict (times courtsSel : List String)
    (todays : List BookingRecord) : Option (String × String) :=
  match times with
  | [] => none
  | t :: ts =>
    match courtsSel.find? (fun c => todays.any (fun b => b.key = mkKey t c)) with
    | some c => some (t, c)
    | none => findConflict ts courtsSel todays

/-- The outcome `handleSubmit` reports through its `alert`s. -/
inductive SubmitResult where
  /-- "Pilih tanggal terlebih dahulu." — empty date. -/
  | missingDate : SubmitResult
  /-- "Pilih jam dan lapangan terlebih dahulu." — no time or no court. -/
  | missingSelection : SubmitResult
  /-- "Slot `t` lapangan `c` sudah terisi…" — the colliding pair. -/
  | conflict (time courtId : String) : SubmitResult
  /-- "Booking berhasil disimpan…" -/
  | success : SubmitResult
deriving DecidableEq

/-- `handleSubmit` (`BookingCard.tsx` lines 206–240): validate, re-read the
live ledger, scan the cross product for a collision (abort, refresh the
cache, change nothing else), else append one record per pair, persist,
refresh the cache and clear the selections. -/
def handleSubmit (st : CardState) (now : Int) : SubmitResult × CardState :=
  if st.date = "" then (.missingDate, st)
  else if st.selectedTimes.length = 0 ∨ st.selectedCourts.length = 0 then
    (.missingSelection, st)
  else
    let todays := (ledgerLookup st.ledger st.date).getD []
    match findConflict st.selectedTimes st.selectedCourts todays with
    | some (t, c) =>
      (.conflict t c,
       { st with bookedSet := loadBookedSetForDate st.date st.ledger })
    | none =>
      let newLedger := updateLedger st.ledger st.date
        (todays ++ submitRecords st.selectedTimes st.selectedCourts now)
      (.success,
       { st with
           ledger := newLedger
           bookedSet := loadBookedSetForDate st.date newLedger
           selectedTimes := []
           selectedCourts := [] })

/-- Date-input change (`BookingCard.tsx` lines 253–263 plus the
`useEffect` on `date`, lines 142–147): set the date and clear both
selections; for a non-empty date the effect then runs
`cleanupExpiredBookings` and recomputes the availability cache. -/
def applyDateChange (st : CardState) (s : String) (now : Int) : CardState :=
  let st1 := { st with date := s, selectedTimes := [], selectedCourts := [] }
  if s = "" then st1
  else
    let led := sweepLedger now st.ledger
    { st1 with ledger := led, bookedSet := loadBookedSetForDate s led }

/-- The `-` button (`BookingCard.tsx` line 275): `Math.max(1, c - 1)`. -/
def applyDec (st : CardState) : CardState :=
  { st with courtCount := max 1 (st.courtCount - 1) }

/-- The `+` button (`BookingCard.tsx` line 282). -/
def applyInc (st : CardState) : CardState :=
  { st with courtCount := st.courtCount + 1 }

/-- A `toggleTime` click. -/
def applyToggleTime (st : CardState) (time : String) : CardState :=
  { st with selectedTimes := toggleTimeList st.selectedTimes time }

/-- A `toggleCourt` click. -/
def applyToggleCourt (st : CardState) (courtId : String) : CardState :=
  { st with selectedCourts := toggleCourtList st courtId }

/-- The `storage`-event handler (`BookingCard.tsx` lines 149–160): sweep,
then recompute the availability cache for the current date. -/
def applyStorageSync (st : CardState) (now : Int) : CardState :=
  let led := sweepLedger now st.ledger
  { st with ledger := led, bookedSet := loadBookedSetForDate st.date led }

/-- A submit-button click. -/
def applySubmit (st : CardState) (now : Int) : CardState :=
  (handleSubmit st now).2

/-- One user/browser event on the rendered `BookingCard`.  The guards are
what the JSX gates: the count, time and court controls render only under a
chosen date, the court grid only under a non-empty time selection, and the
two selectors only offer their fixed catalogs. -/
inductive Step : CardState → CardState → Prop where
  | dateChange (st : CardState) (s : String) (now : Int) :
      Step st (applyDateChange st s now)
  | inc (st : CardState) (h : st.date ≠ "") : Step st (applyInc st)
  | dec (st : CardState) (h : st.date ≠ "") : Step st (applyDec st)
  | toggleTime (st : CardState) (time : String) (hd : st.date ≠ "")
      (ht : time ∈ timesAll) : Step st (applyToggleTime st time)
  | toggleCourt (st : CardState) (courtId : String) (hd : st.date ≠ "")
      (ht : st.selectedTimes ≠ []) (hc : courtId ∈ courts) :
      Step st (applyToggleCourt st courtId)
  | storageSync (st : CardState) (now : Int) : Step st (applyStorageSync st now)
  | submit (st : CardState) (now : Int) : Step st (applySubmit st now)

/-- The component's initial state (`useState` initialisers, lines
136–140) over a given pre-existing durable ledger. -/
def initState (ledger0 : BookingLedger) : CardState :=
  { date := "", courtCount := 1, selectedTimes := [], selectedCourts := [],
    bookedSet := [], ledger := ledger0 }

/-- States the widget can reach from `s0` by any event sequence. -/
inductive Reachable (s0 : CardState) : CardState → Prop where
  | refl : Reachable s0 s0
  | tail {s s' : CardState} : Reachable s0 s → Step s s' → Reachable s0 s'

/-- States reachable without ever decrementing the court count. -/
inductive ReachableND (s0 : CardState) : CardState → Prop where
  | refl : ReachableND s0 s0
  | dateChange {s : CardState} (s' : String) (now : Int) :
      ReachableND s0 s → ReachableND s0 (applyDateChange s s' now)
  | inc {s : CardState} : ReachableND s0 s → s.date ≠ "" →
      ReachableND s0 (applyInc s)
  | toggleTime {s : CardState} (time : String) : ReachableND s0 s →
      s.date ≠ "" → time ∈ timesAll → ReachableND s0 (applyToggleTime s time)
  | toggleCourt {s : CardState} (courtId : String) : ReachableND s0 s →
      s.date ≠ "" → s.selectedTimes ≠ [] → courtId ∈ courts →
      ReachableND s0 (applyToggleCourt s courtId)
  | storageSync {s : CardState} (now : Int) : ReachableND s0 s →
      ReachableND s0 (applyStorageSync s now)
  | submit {s : CardState} (now : Int) : ReachableND s0 s →
      ReachableND s0 (applySubmit s now)

/-! ## Store lemmas -/

theorem filter_eq_self_of_length {α : Type} (p : α → Bool) (l : List α)
    (h : (l.filter p).length = l.length) : l.filter p = l :=
  (List.filter_sublist l).eq_of_length h

theorem sweepExpired_fst (maxAgeMs now : Int) (data : BookingLedger) :
    (sweepExpired maxAgeMs now data).1
      = data.map (fun kv => (kv.1, kv.2.filter (recordFresh now maxAgeMs))) := by
  unfold sweepExpired
  simp only [List.map_map]
  refine List.map_congr_left (fun kv _ => ?_)
  by_cases h : (kv.2.filter (recordFresh now maxAgeMs)).length = kv.2.length
  · simp only [Function.comp_apply, if_pos h]
    exact Prod.ext rfl (filter_eq_self_of_length _ _ h).symm
  · simp only [Function.comp_apply, if_neg h]

theorem ledgerLookup_map (g : List BookingRecord → List BookingRecord)
    (data : BookingLedger) (d : String) :
    ledgerLookup (data.map (fun kv => (kv.1, g kv.2))) d
      = (ledgerLookup data d).map g := by
  induction data with
  | nil => rfl
  | cons kv rest ih =>
    obtain ⟨k, v⟩ := kv
    by_cases h : k = d
    · simp [ledgerLookup, h]
    · simpa [ledgerLookup, h] using ih

theorem ledgerLookup_of_mem_nodup {data : BookingLedger} {d : String}
    {bucket : List BookingRecord}
    (hkeys : (data.map Prod.fst).Nodup) (hmem : (d, bucket) ∈ data) :
    ledgerLookup data d = some bucket := by
  induction data with
  | nil => cases hmem
  | cons kv rest ih =>
    obtain ⟨k, v⟩ := kv
    rcases List.mem_cons.mp hmem with heq | htail
    · obtain ⟨rfl, rfl⟩ := Prod.mk.injEq .. ▸ heq
      simp [ledgerLookup]
    · have hk : k ≠ d := by
        rintro rfl
        exact (List.nodup_cons.mp hkeys).1
          (List.mem_map.mpr ⟨(k, bucket), htail, rfl⟩)
      simpa [ledgerLookup, hk] using ih (List.nodup_cons.mp hkeys).2 htail

theorem sweepExpired_snd (maxAgeMs now : Int) (data : BookingLedger) :
    (sweepExpired maxAgeMs now data).2 = true
      ↔ ∃ p ∈ data, ∃ b ∈ p.2, maxAgeMs ≤ now - b.timestamp := by
  unfold sweepExpired
  simp only [List.any_eq_true]
  constructor
  · rintro ⟨x, hx, hsnd⟩
    obtain ⟨kv, hkv, rfl⟩ := List.mem_map.mp hx
    by_cases h : (kv.2.filter (recordFresh now maxAgeMs)).length = kv.2.length
    · rw [if_pos h] at hsnd
      cases hsnd
    · have : ¬ ∀ b ∈ kv.2, recordFresh now maxAgeMs b = true := by
        intro hall
        exact h (congrArg List.length (List.filter_eq_self.mpr hall))
      push_neg at this
      obtain ⟨b, hb, hfresh⟩ := this
      exact ⟨kv, hkv, b, hb, by
        simpa [recordFresh, not_lt] using hfresh⟩
  · rintro ⟨kv, hkv, b, hb, hold⟩
    have hne : kv.2.filter (recordFresh now maxAgeMs) ≠ kv.2 := by
      intro heq
      have := (List.filter_eq_self.mp heq) b hb
      simp [recordFresh, not_lt.mpr hold] at this
    have hlen : (kv.2.filter (recordFresh now maxAgeMs)).length ≠ kv.2.length :=
      fun h => hne (filter_eq_self_of_length _ _ h)
    refine ⟨((kv.1, kv.2.filter (recordFresh now maxAgeMs)), true),
      List.mem_map.mpr ⟨kv, hkv, ?_⟩, rfl⟩
    rw [if_neg hlen]

theorem sweepExpired_not_changed (maxAgeMs now : Int) (data : BookingLedger)
    (h : (sweepExpired maxAgeMs now data).2 = false) :
    (sweepExpired maxAgeMs now data).1 = data := by
  rw [sweepExpired_fst]
  have hall : ∀ p ∈ data, ∀ b ∈ p.2, recordFresh now maxAgeMs b = true := by
    intro p hp b hb
    by_contra hbad
    have : (sweepExpired maxAgeMs now data).2 = true :=
      (sweepExpired_snd maxAgeMs now data).mpr
        ⟨p, hp, b, hb, by simpa [recordFresh, not_lt] using hbad⟩
    simp [this] at h
  calc data.map (fun kv => (kv.1, kv.2.filter (recordFresh now maxAgeMs)))
      = data.map id := List.map_congr_left (fun kv hkv =>
        Prod.ext rfl (List.filter_eq_self.mpr (hall kv hkv)))
    _ = data := List.map_id data

theorem sweepLedger_eq (now : Int) (data : BookingLedger) :
    sweepLedger now data = (cleanupExpiredBookings now data).1 := by
  unfold sweepLedger
  by_cases h : (cleanupExpiredBookings now data).2 = true
  · simp [h]
  · simp only [Bool.not_eq_true] at h
    simp [h, sweepExpired_not_changed _ _ _ h, cleanupExpiredBookings]

/-! ## Claim C5: the expiration sweep -/

/-- C5.  For every ledger and date bucket the sweep keeps exactly the
records with `now - createdAt < maxAgeMs` (so it removes exactly those
with `now - createdAt ≥ maxAgeMs`); every kept record's key is still in
`bookedKeysForDate` afterwards; and the sweep persists (the `changed` flag
that gates `saveBookingsRaw`) iff at least one record was removed. -/
theorem sweepExpired_removes_exactly_expired (maxAgeMs now : Int)
    (data : BookingLedger) (d : String) (bucket : List BookingRecord)
    (hkeys : (data.map Prod.fst).Nodup) (hmem : (d, bucket) ∈ data)
    (hd : d ≠ "") :
    ledgerLookup (sweepExpired maxAgeMs now data).1 d
        = some (bucket.filter (fun b => now - b.timestamp < maxAgeMs))
      ∧ (∀ b ∈ bucket, now - b.timestamp < maxAgeMs →
          b.key ∈ loadBookedSetForDate d (sweepExpired maxAgeMs now data).1)
      ∧ ((sweepExpired maxAgeMs now data).2 = true ↔
          ∃ p ∈ data, ∃ b ∈ p.2, maxAgeMs ≤ now - b.timestamp) := by
  have hbucket : ledgerLookup (sweepExpired maxAgeMs now data).1 d
      = some (bucket.filter (recordFresh now maxAgeMs)) := by
    rw [sweepExpired_fst, ledgerLookup_map, ledgerLookup_of_mem_nodup hkeys hmem]
    rfl
  refine ⟨?_, ?_, sweepExpired_snd maxAgeMs now data⟩
  · simpa [recordFresh] using hbucket
  · intro b hb hfresh
    unfold loadBookedSetForDate
    rw [if_neg hd, hbucket]
    exact List.mem_map.mpr
      ⟨b, List.mem_filter.mpr ⟨hb, by simpa [recordFresh] using hfresh⟩, rfl⟩

/-- Witness for C5 at a concrete ledger: one record expired (age 150 ≥
100), one fresh (age 50 < 100); the expired one goes, the fresh one's key
stays visible, and the sweep persists. -/
theorem sweepExpired_removes_exactly_expired_witness :
    (([("2025-11-19", [⟨"08:00|1", 100⟩, ⟨"09:00|1", 200⟩])] :
        BookingLedger).map Prod.fst).Nodup
    ∧ ("2025-11-19", [⟨"08:00|1", 100⟩, ⟨"09:00|1", 200⟩])
        ∈ ([("2025-11-19", [⟨"08:00|1", 100⟩, ⟨"09:00|1", 200⟩])] :
            BookingLedger)
    ∧ ledgerLookup
        (sweepExpired 100 250
          [("2025-11-19", [⟨"08:00|1", 100⟩, ⟨"09:00|1", 200⟩])]).1
        "2025-11-19"
        = some ([⟨"08:00|1", 100⟩, ⟨"09:00|1", 200⟩].filter
            (fun b => 250 - b.timestamp < 100))
    ∧ (sweepExpired 100 250
        [("2025-11-19", [⟨"08:00|1", 100⟩, ⟨"09:00|1", 200⟩])]).2 = true :=
  have h := sweepExpired_removes_exactly_expired 100 250
    [("2025-11-19", [⟨"08:00|1", 100⟩, ⟨"09:00|1", 200⟩])]
    "2025-11-19" [⟨"08:00|1", 100⟩, ⟨"09:00|1", 200⟩]
    (by decide) (by decide) (by decide)
  ⟨by decide, by decide, h.1, h.2.2.mpr
    ⟨("2025-11-19", [⟨"08:00|1", 100⟩, ⟨"09:00|1", 200⟩]), by decide,
     ⟨"08:00|1", 100⟩, by decide, by decide⟩⟩

/-! ## Claim C8: read-failure handling -/

/-- C8.  `loadBookingsRaw` returns the empty ledger when the durable slot
is absent or its content fails to parse (the failure never propagates),
and `loadBookedSetForDate` returns the empty set for an empty date
argument or an absent bucket, and exactly the bucket's `key`s otherwise. -/
theorem load_errors_swallowed :
    (∀ parse, loadBookingsRaw none parse = [])
    ∧ (∀ parse raw, parse raw = none → loadBookingsRaw (some raw) parse = [])
    ∧ (∀ ledger, loadBookedSetForDate "" ledger = [])
    ∧ (∀ d ledger, ledgerLookup ledger d = none →
        loadBookedSetForDate d ledger = [])
    ∧ (∀ d ledger bucket, d ≠ "" → ledgerLookup ledger d = some bucket →
        loadBookedSetForDate d ledger = bucket.map (fun b => b.key)) := by
  refine ⟨fun _ => rfl, fun parse raw hraw => ?_, fun _ => rfl,
    fun d ledger hnone => ?_, fun d ledger bucket hd hsome => ?_⟩
  · unfold loadBookingsRaw
    by_cases h : raw = "" <;> simp [h, hraw]
  · unfold loadBookedSetForDate
    by_cases h : d = "" <;> simp [h, hnone]
  · unfold loadBookedSetForDate
    simp [hd, hsome]

/-- Witness for C8: a failing parse on a present slot, and a two-bucket
ledger probed at an absent and at a present date. -/
theorem load_errors_swallowed_witness :
    loadBookingsRaw (some "not json") (fun _ => none) = []
    ∧ loadBookedSetForDate "2025-11-20"
        [("2025-11-19", [⟨"08:00|1", 100⟩])] = []
    ∧ loadBookedSetForDate "2025-11-19"
        [("2025-11-19", [⟨"08:00|1", 100⟩])] = ["08:00|1"] :=
  ⟨load_errors_swallowed.2.1 (fun _ => none) "not json" rfl,
   load_errors_swallowed.2.2.2.1 "2025-11-20"
     [("2025-11-19", [⟨"08:00|1", 100⟩])] (by decide),
   load_errors_swallowed.2.2.2.2 "2025-11-19"
     [("2025-11-19", [⟨"08:00|1", 100⟩])] [⟨"08:00|1", 100⟩]
     (by decide) (by decide)⟩

/-! ## Claim C9: price monotonicity -/

/-- C9.  For every time label the weekend price is at least the weekday
price, strictly greater for labels of the morning or night catalog
(60000 > 50000 and 200000 > 180000). -/
theorem price_weekend_ge_weekday (t : String) :
    getPricePerCourt "weekday" t ≤ getPricePerCourt "weekend" t
    ∧ (t ∈ morning ∨ t ∈ night →
        getPricePerCourt "weekday" t < getPricePerCourt "weekend" t) := by
  unfold getPricePerCourt
  by_cases hm : t ∈ morning
  · simp [hm]
  · by_cases hn : t ∈ night
    · simp [hm, hn]
    · simp [hm, hn]

/-- Witness for C9 at a morning and a night label. -/
theorem price_weekend_ge_weekday_witness :
    getPricePerCourt "weekday" "08.00 - 09.00"
        < getPricePerCourt "weekend" "08.00 - 09.00"
    ∧ getPricePerCourt "weekday" "18.00 - 21.00"
        < getPricePerCourt "weekend" "18.00 - 21.00" :=
  ⟨(price_weekend_ge_weekday "08.00 - 09.00").2 (Or.inl (by decide)),
   (price_weekend_ge_weekday "18.00 - 21.00").2 (Or.inr (by decide))⟩

/-! ## Claim C6: the canonical start token -/

theorem replaceFirstAux_of_prefix (pat rep : List Char) (l : List Char)
    (hne : pat ≠ []) (h : pat.isPrefixOf l = true) :
    replaceFirstAux pat rep l = rep ++ l.drop pat.length := by
  cases l with
  | nil =>
    cases pat with
    | nil => exact absurd rfl hne
    | cons p ps => simp [List.isPrefixOf] at h
  | cons x xs =>
    unfold replaceFirstAux
    rw [if_pos h]

/-- C6.  For every label containing the `" - "` separator,
`startTimeFromLabel` never returns `"24:00"`; in particular both spellings
of the midnight-wrap night package normalize to the canonical `"00:00"`. -/
theorem startTimeFromLabel_never_2400 :
    (∀ label : String, jsIncludes label " - " = true →
      startTimeFromLabel label ≠ "24:00")
    ∧ startTimeFromLabel "24.00 - 03.00" = "00:00"
    ∧ startTimeFromLabel "24:00 - 03:00" = "00:00" := by
  refine ⟨fun label _ => ?_, by decide, by decide⟩
  unfold startTimeFromLabel
  set hourMin := jsReplaceFirst (jsTrim (jsSplitFirst label " - ")) "." ":"
    with hdef
  by_cases hpre : jsStartsWith hourMin "24:" = true
  · rw [if_pos hpre]
    have hlist : ("24:".data).isPrefixOf hourMin.data = true := hpre
    intro heq
    have hdata : (jsReplaceFirst hourMin "24:" "00:").data = "24:00".data :=
      congrArg String.data heq
    rw [show (jsReplaceFirst hourMin "24:" "00:").data
          = replaceFirstAux "24:".data "00:".data hourMin.data from rfl,
        replaceFirstAux_of_prefix _ _ _ (by decide) hlist] at hdata
    have h0 : ("00:".data ++ hourMin.data.drop ("24:".data.length)).head?
        = ("24:00".data).head? := congrArg List.head? hdata
    simp at h0
  · rw [if_neg hpre]
    by_cases h24 : hourMin = "24:00"
    · rw [if_pos h24]
      decide
    · rw [if_neg h24]
      exact h24

/-- Witness for C6 at the wrap-around label. -/
theorem startTimeFromLabel_never_2400_witness :
    jsIncludes "24.00 - 03.00" " - " = true
    ∧ startTimeFromLabel "24.00 - 03.00" ≠ "24:00" :=
  ⟨by decide, startTimeFromLabel_never_2400.1 "24.00 - 03.00" (by decide)⟩

/-! ## Workflow lemmas -/

theorem ledgerLookup_updateLedger_self (l : BookingLedger) (d : String)
    (bs : List BookingRecord) :
    ledgerLookup (updateLedger l d bs) d = some bs := by
  induction l with
  | nil => simp [updateLedger, ledgerLookup]
  | cons kv rest ih =>
    obtain ⟨k, v⟩ := kv
    by_cases h : k = d
    · simp [updateLedger, h, ledgerLookup]
    · simp [updateLedger, h, ledgerLookup, ih]

theorem ledgerLookup_updateLedger_ne (l : BookingLedger) (d d' : String)
    (bs : List BookingRecord) (h : d' ≠ d) :
    ledgerLookup (updateLedger l d bs) d' = ledgerLookup l d' := by
  have hdi : d ≠ d' := fun he => h he.symm
  induction l with
  | nil => simp [updateLedger, ledgerLookup, hdi]
  | cons kv rest ih =>
    obtain ⟨k, v⟩ := kv
    by_cases hk : k = d
    · subst hk
      simp [updateLedger, ledgerLookup, hdi]
    · simp [updateLedger, hk, ledgerLookup, ih]

theorem updateLedger_map_fst (l : BookingLedger) (d : String)
    (bs : List BookingRecord) :
    (updateLedger l d bs).map Prod.fst
      = if d ∈ l.map Prod.fst then l.map Prod.fst
        else l.map Prod.fst ++ [d] := by
  induction l with
  | nil => simp [updateLedger]
  | cons kv rest ih =>
    obtain ⟨k, v⟩ := kv
    by_cases hkd : k = d
    · subst hkd
      simp [updateLedger]
    · have hne : d ≠ k := fun he => hkd he.symm
      by_cases hmem : d ∈ rest.map Prod.fst
      · simp [updateLedger, hkd, ih, hmem, hne]
      · simp [updateLedger, hkd, ih, hmem, hne]

theorem updateLedger_keys_nodup (l : BookingLedger) (d : String)
    (bs : List BookingRecord) (h : (l.map Prod.fst).Nodup) :
    ((updateLedger l d bs).map Prod.fst).Nodup := by
  rw [updateLedger_map_fst]
  by_cases hmem : d ∈ l.map Prod.fst
  · simpa [hmem] using h
  · rw [if_neg hmem]
    exact List.nodup_append.mpr
      ⟨h, List.nodup_singleton d,
       fun x hx hxd => hmem (by rwa [List.mem_singleton.mp hxd] at hx)⟩

theorem sweepLedger_map_fst (now : Int) (l : BookingLedger) :
    (sweepLedger now l).map Prod.fst = l.map Prod.fst := by
  rw [sweepLedger_eq]
  show ((sweepExpired TWO_HOURS_MS now l).1).map Prod.fst = l.map Prod.fst
  rw [sweepExpired_fst, List.map_map]
  rfl

theorem sweepLedger_lookup (now : Int) (l : BookingLedger) (d : String) :
    ledgerLookup (sweepLedger now l) d
      = (ledgerLookup l d).map
          (List.filter (recordFresh now TWO_HOURS_MS)) := by
  rw [sweepLedger_eq]
  show ledgerLookup (sweepExpired TWO_HOURS_MS now l).1 d = _
  rw [sweepExpired_fst, ledgerLookup_map]

/-- Keys of the records `handleSubmit` pushes: the slot key of every
`(time, court)` pair of the cross product, in loop order. -/
theorem submitRecords_map_key (ts cs : List String) (now : Int) :
    (submitRecords ts cs now).map (fun b => b.key)
      = (ts ×ˢ cs).map (fun p => mkKey p.1 p.2) := by
  induction ts with
  | nil => rfl
  | cons t ts ih =>
    simp only [submitRecords, SProd.sprod, List.product] at *
    simp [List.map_map, Function.comp_def, ih]

theorem findConflict_eq_none_iff (ts cs : List String)
    (todays : List BookingRecord) :
    findConflict ts cs todays = none
      ↔ ∀ t ∈ ts, ∀ c ∈ cs, ∀ b ∈ todays, b.key ≠ mkKey t c := by
  induction ts with
  | nil => simp [findConflict]
  | cons t ts ih =>
    unfold findConflict
    cases hf : cs.find? (fun c => todays.any (fun b => b.key = mkKey t c)) with
    | some c =>
      simp only [reduceCtorEq, false_iff]
      intro hall
      have := List.find?_some hf
      rcases List.any_eq_true.mp this with ⟨b, hb, hkey⟩
      exact hall t (List.mem_cons_self t ts) c (List.mem_of_find?_eq_some hf)
        b hb (by simpa using hkey)
    | none =>
      rw [ih]
      constructor
      · intro hall t' ht' c hc b hb
        rcases List.mem_cons.mp ht' with rfl | ht'
        · have := List.find?_eq_none.mp hf c hc
          intro hkey
          exact this (List.any_eq_true.mpr ⟨b, hb, by simpa using hkey⟩)
        · exact hall t' ht' c hc b hb
      · intro hall t' ht' c hc b hb
        exact hall t' (List.mem_cons_of_mem t ht') c hc b hb

theorem findConflict_eq_some (ts cs : List String)
    (todays : List BookingRecord) (t c : String)
    (h : findConflict ts cs todays = some (t, c)) :
    t ∈ ts ∧ c ∈ cs ∧ ∃ b ∈ todays, b.key = mkKey t c := by
  induction ts with
  | nil => cases h
  | cons t' ts ih =>
    unfold findConflict at h
    cases hf : cs.find? (fun c => todays.any (fun b => b.key = mkKey t' c)) with
    | some c' =>
      rw [hf] at h
      have heq := Option.some.inj h
      rw [Prod.mk.injEq] at heq
      obtain ⟨ht, hc⟩ := heq
      subst ht
      subst hc
      have hany := List.find?_some hf
      rcases List.any_eq_true.mp hany with ⟨b, hb, hkey⟩
      exact ⟨List.mem_cons_self _ _, List.mem_of_find?_eq_some hf,
        b, hb, by simpa using hkey⟩
    | none =>
      rw [hf] at h
      obtain ⟨ht, hc, hb⟩ := ih h
      exact ⟨List.mem_cons_of_mem t' ht, hc, hb⟩

/-- The bucket `handleSubmit` reads for the current date. -/
def todaysOf (st : CardState) : List BookingRecord :=
  (ledgerLookup st.ledger st.date).getD []

/-- The state `handleSubmit` leaves behind, by branch: unchanged on a
validation failure; only the availability cache refreshed on a conflict;
ledger extended, cache refreshed and selections cleared on success. -/
theorem handleSubmit_snd_cases (st : CardState) (now : Int) :
    (handleSubmit st now).2 = st
    ∨ ((handleSubmit st now).2
        = { st with bookedSet := loadBookedSetForDate st.date st.ledger })
    ∨ (findConflict st.selectedTimes st.selectedCourts (todaysOf st) = none
       ∧ (handleSubmit st now).2
          = { st with
                ledger := updateLedger st.ledger st.date
                  (todaysOf st
                    ++ submitRecords st.selectedTimes st.selectedCourts now)
                bookedSet := loadBookedSetForDate st.date
                  (updateLedger st.ledger st.date
                    (todaysOf st
                      ++ submitRecords st.selectedTimes st.selectedCourts now))
                selectedTimes := []
                selectedCourts := [] }) := by
  by_cases hd : st.date = ""
  · exact Or.inl (by simp [handleSubmit, hd])
  · by_cases hsel : st.selectedTimes = [] ∨ st.selectedCourts = []
    · refine Or.inl ?_
      rcases hsel with h | h <;> simp [handleSubmit, hd, h]
    · rw [not_or] at hsel
      obtain ⟨h1, h2⟩ := hsel
      cases hf : findConflict st.selectedTimes st.selectedCourts
          (todaysOf st) with
      | some tc =>
        obtain ⟨t, c⟩ := tc
        refine Or.inr (Or.inl ?_)
        have hf' : findConflict st.selectedTimes st.selectedCourts
            ((ledgerLookup st.ledger st.date).getD []) = some (t, c) := hf
        simp [handleSubmit, hd, h1, h2, hf']
      | none =>
        refine Or.inr (Or.inr ⟨rfl, ?_⟩)
        have hf' : findConflict st.selectedTimes st.selectedCourts
            ((ledgerLookup st.ledger st.date).getD []) = none := hf
        simp [handleSubmit, hd, h1, h2, hf', todaysOf]

/-- `handleSubmit` never touches the date or the court count. -/
theorem handleSubmit_date_courtCount (st : CardState) (now : Int) :
    (handleSubmit st now).2.date = st.date
    ∧ (handleSubmit st now).2.courtCount = st.courtCount := by
  rcases handleSubmit_snd_cases st now with h | h | ⟨-, h⟩ <;> rw [h]
  · exact ⟨rfl, rfl⟩
  · exact ⟨rfl, rfl⟩
  · exact ⟨rfl, rfl⟩

/-- `handleSubmit` either keeps a selection list or clears it. -/
theorem handleSubmit_selections (st : CardState) (now : Int) :
    ((handleSubmit st now).2.selectedTimes = st.selectedTimes
      ∨ (handleSubmit st now).2.selectedTimes = [])
    ∧ ((handleSubmit st now).2.selectedCourts = st.selectedCourts
      ∨ (handleSubmit st now).2.selectedCourts = []) := by
  rcases handleSubmit_snd_cases st now with h | h | ⟨-, h⟩ <;> rw [h]
  · exact ⟨Or.inl rfl, Or.inl rfl⟩
  · exact ⟨Or.inl rfl, Or.inl rfl⟩
  · exact ⟨Or.inr rfl, Or.inr rfl⟩

/-- Keys of the pushed records are pairwise distinct when the selections
are duplicate-free subsets of the rendered catalogs: distinct catalog
labels have distinct normalized start times, and courts are distinct
tokens, so the composite keys of distinct `(time, court)` pairs differ. -/
theorem submitRecords_key_nodup (ts cs : List String) (now : Int)
    (hts : ts.Nodup) (hcs : cs.Nodup)
    (htsub : ∀ t ∈ ts, t ∈ timesAll) (hcsub : ∀ c ∈ cs, c ∈ courts) :
    ((submitRecords ts cs now).map (fun b => b.key)).Nodup := by
  rw [submitRecords_map_key]
  have hbig : ((timesAll ×ˢ courts).map (fun p => mkKey p.1 p.2)).Nodup := by
    decide
  have hinj := List.inj_on_of_nodup_map hbig
  refine (hts.product hcs).map_on ?_
  rintro ⟨t₁, c₁⟩ hx ⟨t₂, c₂⟩ hy hxy
  rw [List.mem_product] at hx hy
  exact hinj
    (List.mem_product.mpr ⟨htsub _ hx.1, hcsub _ hx.2⟩)
    (List.mem_product.mpr ⟨htsub _ hy.1, hcsub _ hy.2⟩) hxy

/-- The transient-draft well-formedness the widget maintains: both
selection lists are duplicate-free and drawn from the rendered catalogs. -/
def FormOk (st : CardState) : Prop :=
  st.selectedTimes.Nodup ∧ (∀ t ∈ st.selectedTimes, t ∈ timesAll)
  ∧ st.selectedCourts.Nodup ∧ (∀ c ∈ st.selectedCourts, c ∈ courts)

theorem toggleTimeList_nodup {prev : List String} (t : String)
    (h : prev.Nodup) : (toggleTimeList prev t).Nodup := by
  unfold toggleTimeList
  by_cases hm : t ∈ prev
  · rw [if_pos hm]
    exact h.filter _
  · rw [if_neg hm]
    exact List.nodup_append.mpr
      ⟨h, List.nodup_singleton t,
       fun x hx hxt => hm (by rwa [List.mem_singleton.mp hxt] at hx)⟩

theorem toggleTimeList_subset {prev cat : List String} {t : String}
    (h : ∀ x ∈ prev, x ∈ cat) (ht : t ∈ cat) :
    ∀ x ∈ toggleTimeList prev t, x ∈ cat := by
  intro x hx
  unfold toggleTimeList at hx
  by_cases hm : t ∈ prev
  · rw [if_pos hm] at hx
    exact h x (List.mem_of_mem_filter hx)
  · rw [if_neg hm] at hx
    rcases List.mem_append.mp hx with hx | hx
    · exact h x hx
    · rwa [List.mem_singleton.mp hx]

theorem toggleCourtList_cases (st : CardState) (c : String) :
    toggleCourtList st c = st.selectedCourts.filter (fun x => x ≠ c)
    ∨ toggleCourtList st c = st.selectedCourts
    ∨ (c ∉ st.selectedCourts ∧ st.selectedCourts.length < st.courtCount
        ∧ toggleCourtList st c = st.selectedCourts ++ [c]) := by
  unfold toggleCourtList
  by_cases hm : c ∈ st.selectedCourts
  · exact Or.inl (by rw [if_pos hm])
  · rw [if_neg hm]
    by_cases hcap : st.courtCount ≤ st.selectedCourts.length
    · exact Or.inr (Or.inl (by rw [if_pos hcap]))
    · rw [if_neg hcap]
      by_cases hbooked :
          st.selectedTimes.any (fun t => isSlotBooked st t c) = true
      · exact Or.inr (Or.inl (by rw [if_pos hbooked]))
      · exact Or.inr (Or.inr ⟨hm, lt_of_not_le hcap, by rw [if_neg hbooked]⟩)

theorem toggleCourtList_nodup (st : CardState) (c : String)
    (h : st.selectedCourts.Nodup) : (toggleCourtList st c).Nodup := by
  rcases toggleCourtList_cases st c with hc | hc | ⟨hm, -, hc⟩ <;> rw [hc]
  · exact h.filter _
  · exact h
  · exact List.nodup_append.mpr
      ⟨h, List.nodup_singleton c,
       fun x hx hxc => hm (by rwa [List.mem_singleton.mp hxc] at hx)⟩

theorem toggleCourtList_subset (st : CardState) (c : String)
    (h : ∀ x ∈ st.selectedCourts, x ∈ courts) (hc : c ∈ courts) :
    ∀ x ∈ toggleCourtList st c, x ∈ courts := by
  intro x hx
  rcases toggleCourtList_cases st c with hcs | hcs | ⟨-, -, hcs⟩ <;>
    rw [hcs] at hx
  · exact h x (List.mem_of_mem_filter hx)
  · exact h x hx
  · rcases List.mem_append.mp hx with hx | hx
    · exact h x hx
    · rwa [List.mem_singleton.mp hx]

theorem toggleCourtList_length (st : CardState) (c : String)
    (h : st.selectedCourts.length ≤ st.courtCount) :
    (toggleCourtList st c).length ≤ st.courtCount := by
  rcases toggleCourtList_cases st c with hc | hc | ⟨-, hlt, hc⟩ <;> rw [hc]
  · exact le_trans (List.length_filter_le _ _) h
  · exact h
  · rw [List.length_append, List.length_singleton]
    exact hlt

/-- Every reachable widget state has a well-formed draft: the selections
stay duplicate-free subsets of the catalogs under every event. -/
theorem reachable_formOk (L0 : BookingLedger) (s : CardState)
    (h : Reachable (initState L0) s) : FormOk s := by
  induction h with
  | refl =>
    exact ⟨List.nodup_nil, by simp [initState], List.nodup_nil,
      by simp [initState]⟩
  | @tail sMid sNext hr hstep ih =>
    cases hstep with
    | dateChange s' now =>
      have hfields : (applyDateChange sMid s' now).selectedTimes = []
          ∧ (applyDateChange sMid s' now).selectedCourts = [] := by
        unfold applyDateChange
        by_cases h0 : s' = "" <;> simp [h0]
      refine ⟨?_, ?_, ?_, ?_⟩
      · rw [hfields.1]
        exact List.nodup_nil
      · rw [hfields.1]
        simp
      · rw [hfields.2]
        exact List.nodup_nil
      · rw [hfields.2]
        simp
    | inc hd => exact ih
    | dec hd => exact ih
    | toggleTime t hd ht =>
      exact ⟨toggleTimeList_nodup t ih.1, toggleTimeList_subset ih.2.1 ht,
        ih.2.2.1, ih.2.2.2⟩
    | toggleCourt c hd hts hc =>
      exact ⟨ih.1, ih.2.1, toggleCourtList_nodup sMid c ih.2.2.1,
        toggleCourtList_subset sMid c ih.2.2.2 hc⟩
    | storageSync now => exact ih
    | submit now =>
      obtain ⟨hT, hC⟩ := handleSubmit_selections sMid now
      refine ⟨?_, ?_, ?_, ?_⟩
      · show ((handleSubmit sMid now).2.selectedTimes).Nodup
        rcases hT with h | h <;> rw [h]
        · exact ih.1
        · exact List.nodup_nil
      · show ∀ t ∈ (handleSubmit sMid now).2.selectedTimes, t ∈ timesAll
        rcases hT with h | h <;> rw [h]
        · exact ih.2.1
        · simp
      · show ((handleSubmit sMid now).2.selectedCourts).Nodup
        rcases hC with h | h <;> rw [h]
        · exact ih.2.2.1
        · exact List.nodup_nil
      · show ∀ c ∈ (handleSubmit sMid now).2.selectedCourts, c ∈ courts
        rcases hC with h | h <;> rw [h]
        · exact ih.2.2.2
        · simp

theorem sweepLedger_bucket_nodup (now : Int) (l : BookingLedger) (d : String)
    (h : (((ledgerLookup l d).getD []).map (fun b => b.key)).Nodup) :
    (((ledgerLookup (sweepLedger now l) d).getD []).map
        (fun b => b.key)).Nodup := by
  rw [sweepLedger_lookup]
  cases hl : ledgerLookup l d with
  | none => simp
  | some bucket =>
    rw [hl] at h
    simp only [Option.map_some', Option.getD_some] at h ⊢
    exact h.sublist ((bucket.filter_sublist).map _)

/-- Ledger representation invariant along any run: the ledger keeps
unique date keys, and any date bucket that started with pairwise-distinct
slot keys keeps them pairwise distinct. -/
theorem reachable_ledger_inv (L0 : BookingLedger) (s : CardState)
    (hL : (L0.map Prod.fst).Nodup) (h : Reachable (initState L0) s) :
    (s.ledger.map Prod.fst).Nodup
    ∧ ∀ d, (((ledgerLookup L0 d).getD []).map (fun b => b.key)).Nodup →
        (((ledgerLookup s.ledger d).getD []).map (fun b => b.key)).Nodup := by
  induction h with
  | refl => exact ⟨hL, fun d hd => hd⟩
  | @tail sMid sNext hr hstep ih =>
    have hsweep : ∀ now : Int,
        ((sweepLedger now sMid.ledger).map Prod.fst).Nodup
        ∧ ∀ d, (((ledgerLookup L0 d).getD []).map (fun b => b.key)).Nodup →
            (((ledgerLookup (sweepLedger now sMid.ledger) d).getD []).map
                (fun b => b.key)).Nodup := by
      intro now
      exact ⟨by rw [sweepLedger_map_fst]; exact ih.1,
        fun d hd => sweepLedger_bucket_nodup now sMid.ledger d (ih.2 d hd)⟩
    cases hstep with
    | dateChange s' now =>
      by_cases h0 : s' = ""
      · have : (applyDateChange sMid s' now).ledger = sMid.ledger := by
          unfold applyDateChange
          simp [h0]
        rw [this]
        exact ih
      · have : (applyDateChange sMid s' now).ledger
            = sweepLedger now sMid.ledger := by
          unfold applyDateChange
          simp [h0]
        rw [this]
        exact hsweep now
    | inc hd => exact ih
    | dec hd => exact ih
    | toggleTime t hd ht => exact ih
    | toggleCourt c hd hts hc => exact ih
    | storageSync now => exact hsweep now
    | submit now =>
      rcases handleSubmit_snd_cases sMid now with hcase | hcase | ⟨hnone, hcase⟩
      · have hled : (applySubmit sMid now).ledger = sMid.ledger := by
          show (handleSubmit sMid now).2.ledger = sMid.ledger
          rw [hcase]
        rw [show (applySubmit sMid now).ledger = sMid.ledger from hled]
        exact ih
      · have hled : (applySubmit sMid now).ledger = sMid.ledger := by
          show (handleSubmit sMid now).2.ledger = sMid.ledger
          rw [hcase]
        rw [show (applySubmit sMid now).ledger = sMid.ledger from hled]
        exact ih
      · have hform := reachable_formOk L0 sMid hr
        have hled : (applySubmit sMid now).ledger
            = updateLedger sMid.ledger sMid.date
                (todaysOf sMid
                  ++ submitRecords sMid.selectedTimes sMid.selectedCourts
                       now) := by
          show (handleSubmit sMid now).2.ledger = _
          rw [hcase]
        rw [hled]
        refine ⟨updateLedger_keys_nodup _ _ _ ih.1, fun d hd => ?_⟩
        by_cases hdd : d = sMid.date
        · subst hdd
          rw [ledgerLookup_updateLedger_self, Option.getD_some, List.map_append]
          have htodays : ((todaysOf sMid).map (fun b => b.key)).Nodup :=
            ih.2 sMid.date hd
          have hnew : ((submitRecords sMid.selectedTimes sMid.selectedCourts
              now).map (fun b => b.key)).Nodup :=
            submitRecords_key_nodup _ _ now hform.1 hform.2.2.1
              hform.2.1 hform.2.2.2
          refine List.nodup_append.mpr ⟨htodays, hnew, ?_⟩
          intro x hxold hxnew
          rcases List.mem_map.mp hxold with ⟨b, hb, rfl⟩
          rw [submitRecords_map_key] at hxnew
          rcases List.mem_map.mp hxnew with ⟨⟨t, c⟩, hp, hkey⟩
          rw [List.mem_product] at hp
          exact (findConflict_eq_none_iff _ _ _).mp hnone t hp.1 c hp.2 b hb
            hkey.symm
        · rw [ledgerLookup_updateLedger_ne _ _ _ _ hdd]
          exact ih.2 d hd

/-! ## Concrete scenario states (Scenario A of §8, and variants) -/

/-- Scenario A step 1: pick Wednesday 2025-11-19 over an empty ledger. -/
def wsDate : CardState := applyDateChange (initState []) "2025-11-19" 0

/-- Scenario A step 2: select the morning slot `"08.00 - 09.00"`. -/
def wsTime : CardState := applyToggleTime wsDate "08.00 - 09.00"

/-- Scenario A step 3: select court `"1"`. -/
def wsCourt : CardState := applyToggleCourt wsTime "1"

/-- Scenario A step 4: submit at timestamp 1000. -/
def wsDone : CardState := applySubmit wsCourt 1000

theorem reach_wsDate : Reachable (initState []) wsDate :=
  Reachable.tail Reachable.refl (Step.dateChange (initState []) "2025-11-19" 0)

theorem reach_wsTime : Reachable (initState []) wsTime :=
  Reachable.tail reach_wsDate
    (Step.toggleTime wsDate "08.00 - 09.00" (by decide) (by decide))

theorem reach_wsCourt : Reachable (initState []) wsCourt :=
  Reachable.tail reach_wsTime
    (Step.toggleCourt wsTime "1" (by decide) (by decide) (by decide))

theorem reach_wsDone : Reachable (initState []) wsDone :=
  Reachable.tail reach_wsCourt (Step.submit wsCourt 1000)

/-! ## Claim C1: per-date slot-key uniqueness -/

/-- C1.  For every date bucket of the initial ledger whose slot keys are
pairwise distinct, after any sequence of widget events — in particular any
successful submissions — that bucket's slot keys stay pairwise distinct. -/
theorem submissions_preserve_slotKey_uniqueness (L0 : BookingLedger)
    (s : CardState) (hL : (L0.map Prod.fst).Nodup)
    (h : Reachable (initState L0) s) (d : String)
    (hd : (((ledgerLookup L0 d).getD []).map (fun b => b.key)).Nodup) :
    (((ledgerLookup s.ledger d).getD []).map (fun b => b.key)).Nodup :=
  (reachable_ledger_inv L0 s hL h).2 d hd

/-- Witness for C1: after Scenario A's successful submission the
2025-11-19 bucket still has pairwise-distinct keys. -/
theorem submissions_preserve_slotKey_uniqueness_witness :
    (([] : BookingLedger).map Prod.fst).Nodup
    ∧ (((ledgerLookup ([] : BookingLedger) "2025-11-19").getD []).map
        (fun b => b.key)).Nodup
    ∧ (((ledgerLookup wsDone.ledger "2025-11-19").getD []).map
        (fun b => b.key)).Nodup :=
  ⟨by decide, by decide,
   submissions_preserve_slotKey_uniqueness [] wsDone (by decide)
     reach_wsDone "2025-11-19" (by decide)⟩

/-! ## Claim C2: atomic conflict-checked submission -/

/-- C2.  A submission with non-empty date/times/courts re-reads the live
ledger bucket; the conflict scan finds nothing iff no cross-product key is
present; on a collision the run returns exactly the conflict outcome with
the colliding time (of the selection) and court surfaced, the ledger
untouched and only the availability cache refreshed; with no collision it
returns success with one record per `(time, court)` pair appended to the
bucket, persisted, the cache refreshed and the selections cleared. -/
theorem handleSubmit_atomic (st : CardState) (now : Int)
    (hdate : st.date ≠ "") (htimes : st.selectedTimes ≠ [])
    (hcourts : st.selectedCourts ≠ []) :
    (findConflict st.selectedTimes st.selectedCourts (todaysOf st) = none
      ↔ ∀ t ∈ st.selectedTimes, ∀ c ∈ st.selectedCourts,
          ∀ b ∈ todaysOf st, b.key ≠ mkKey t c)
    ∧ (∀ t c,
        findConflict st.selectedTimes st.selectedCourts (todaysOf st)
            = some (t, c) →
        handleSubmit st now
            = (SubmitResult.conflict t c,
               { st with
                   bookedSet := loadBookedSetForDate st.date st.ledger })
        ∧ t ∈ st.selectedTimes ∧ c ∈ st.selectedCourts
        ∧ ∃ b ∈ todaysOf st, b.key = mkKey t c)
    ∧ (findConflict st.selectedTimes st.selectedCourts (todaysOf st) = none →
        handleSubmit st now
            = (SubmitResult.success,
               { st with
                   ledger := updateLedger st.ledger st.date
                     (todaysOf st
                       ++ submitRecords st.selectedTimes st.selectedCourts now)
                   bookedSet := loadBookedSetForDate st.date
                     (updateLedger st.ledger st.date
                       (todaysOf st
                         ++ submitRecords st.selectedTimes st.selectedCourts
                              now))
                   selectedTimes := []
                   selectedCourts := [] })
        ∧ (submitRecords st.selectedTimes st.selectedCourts now).map
            (fun b => b.key)
          = (st.selectedTimes ×ˢ st.selectedCourts).map
              (fun p => mkKey p.1 p.2)) := by
  refine ⟨findConflict_eq_none_iff _ _ _, fun t c hf => ?_, fun hf => ?_⟩
  · have hf' : findConflict st.selectedTimes st.selectedCourts
        ((ledgerLookup st.ledger st.date).getD []) = some (t, c) := hf
    obtain ⟨ht, hc, hb⟩ := findConflict_eq_some _ _ _ t c hf
    exact ⟨by simp [handleSubmit, hdate, htimes, hcourts, hf'], ht, hc, hb⟩
  · have hf' : findConflict st.selectedTimes st.selectedCourts
        ((ledgerLookup st.ledger st.date).getD []) = none := hf
    exact ⟨by simp [handleSubmit, hdate, htimes, hcourts, hf', todaysOf],
      submitRecords_map_key _ _ now⟩

/-- Witness for C2 at Scenario A's pre-submission state (conflict-free
branch). -/
theorem handleSubmit_atomic_witness :
    wsCourt.date ≠ "" ∧ wsCourt.selectedTimes ≠ []
    ∧ wsCourt.selectedCourts ≠ []
    ∧ findConflict wsCourt.selectedTimes wsCourt.selectedCourts
        (todaysOf wsCourt) = none
    ∧ (handleSubmit wsCourt 1000).1 = SubmitResult.success :=
  ⟨by decide, by decide, by decide, by decide, by
    rw [((handleSubmit_atomic wsCourt 1000 (by decide) (by decide)
      (by decide)).2.2 (by decide)).1]⟩

/-! ## Claim C7: validation failures change nothing -/

/-- C7.  A submission with an empty date, or an empty time selection, or
an empty court selection, is answered by a validation message alone: the
whole component state — form fields, cache and ledger — is unchanged. -/
theorem handleSubmit_rejects_invalid (st : CardState) (now : Int)
    (h : st.date = "" ∨ st.selectedTimes = [] ∨ st.selectedCourts = []) :
    (handleSubmit st now).2 = st
    ∧ ((handleSubmit st now).1 = SubmitResult.missingDate
        ∨ (handleSubmit st now).1 = SubmitResult.missingSelection) := by
  rcases h with h | h | h
  · constructor <;> simp [handleSubmit, h]
  · by_cases hd : st.date = ""
    · constructor <;> simp [handleSubmit, hd]
    · constructor <;> simp [handleSubmit, hd, h]
  · by_cases hd : st.date = ""
    · constructor <;> simp [handleSubmit, hd]
    · constructor <;> simp [handleSubmit, hd, h]

/-- Witness for C7: submitting with a date but no time slots selected
(§8 Scenario D). -/
theorem handleSubmit_rejects_invalid_witness :
    (wsDate.date = "" ∨ wsDate.selectedTimes = []
      ∨ wsDate.selectedCourts = [])
    ∧ (handleSubmit wsDate 0).2 = wsDate
    ∧ ((handleSubmit wsDate 0).1 = SubmitResult.missingDate
        ∨ (handleSubmit wsDate 0).1 = SubmitResult.missingSelection) :=
  have h := handleSubmit_rejects_invalid wsDate 0 (Or.inr (Or.inl (by decide)))
  ⟨Or.inr (Or.inl (by decide)), h.1, h.2⟩

/-! ## Claim C3 (corrected): the capacity invariant and the decrement -/

/-- Two courts selected while `courtCount = 2`. -/
def c3Inc : CardState := applyInc wsTime

/-- …then court `"1"`. -/
def c3One : CardState := applyToggleCourt c3Inc "1"

/-- …then court `"2"`. -/
def c3Two : CardState := applyToggleCourt c3One "2"

/-- …then the `-` button: `courtCount` drops to 1 with both courts still
selected. -/
def c3Dec : CardState := applyDec c3Two

/-- C3 counterexample: a reachable state with
`|selectedCourts| > courtCount` — select a date and a time, raise the
court count to 2, pick courts 1 and 2, then press `-`; the decrement
clamps at 1 but never prunes `selectedCourts`. -/
theorem courtCount_invariant_counterexample :
    Reachable (initState []) c3Dec
    ∧ c3Dec.courtCount < c3Dec.selectedCourts.length :=
  ⟨Reachable.tail
    (Reachable.tail
      (Reachable.tail
        (Reachable.tail reach_wsTime (Step.inc wsTime (by decide)))
        (Step.toggleCourt c3Inc "1" (by decide) (by decide) (by decide)))
      (Step.toggleCourt c3One "2" (by decide) (by decide) (by decide)))
    (Step.dec c3Two (by decide)),
   by decide⟩

/-- C3 as amended: `|selectedCourts| ≤ courtCount` holds in every state
reachable without pressing the court-count `-` button (every other event —
date change, increment, time toggle, court toggle, sync, submission —
preserves it; only a decrement below the current selection size breaks
it). -/
theorem courtSelection_within_capacity_no_dec (L0 : BookingLedger)
    (s : CardState) (h : ReachableND (initState L0) s) :
    s.selectedCourts.length ≤ s.courtCount := by
  induction h with
  | refl => simp [initState]
  | @dateChange sMid s' now hr ih =>
    unfold applyDateChange
    by_cases h0 : s' = "" <;> simp [h0]
  | @inc sMid hr hd ih => exact Nat.le_succ_of_le ih
  | @toggleTime sMid t hr hd ht ih => exact ih
  | @toggleCourt sMid c hr hd hts hc ih => exact toggleCourtList_length sMid c ih
  | @storageSync sMid now hr ih => exact ih
  | @submit sMid now hr ih =>
    show ((handleSubmit sMid now).2.selectedCourts).length
        ≤ (handleSubmit sMid now).2.courtCount
    rw [(handleSubmit_date_courtCount sMid now).2]
    rcases (handleSubmit_selections sMid now).2 with h | h <;> rw [h]
    · exact ih
    · simp

/-- Witness for the amended C3: the decrement-free prefix of the
counterexample trace satisfies the bound (2 courts, count 2). -/
theorem courtSelection_within_capacity_no_dec_witness :
    ReachableND (initState []) c3Two
    ∧ c3Two.selectedCourts.length ≤ c3Two.courtCount :=
  have hch : ReachableND (initState []) c3Two :=
    ReachableND.toggleCourt "2"
      (ReachableND.toggleCourt "1"
        (ReachableND.inc
          (ReachableND.toggleTime "08.00 - 09.00"
            (ReachableND.dateChange "2025-11-19" 0 ReachableND.refl)
            (by decide) (by decide))
          (by decide))
        (by decide) (by decide) (by decide))
      (by decide) (by decide) (by decide)
  ⟨hch, courtSelection_within_capacity_no_dec [] c3Two hch⟩

/-! ## Claim C4 (corrected): Scenario A -/

/-- The claim's literal state: the colon-spelled label
`"08:00 - 09:00"` forced into the selection. -/
def scAColon : CardState :=
  { date := "2025-11-19", courtCount := 1,
    selectedTimes := ["08:00 - 09:00"], selectedCourts := ["1"],
    bookedSet := [], ledger := [] }

/-- C4 counterexample: with the claim's label `"08:00 - 09:00"` the shown
total is 0, not the weekday morning rate 50000 — the label is in neither
the widget's selectable catalog nor the price catalog (which spells it
`"08.00 - 09.00"`), though submission still succeeds and stores
`"08:00|1"`. -/
theorem scenarioA_total_counterexample :
    "08:00 - 09:00" ∉ timesAll
    ∧ getPricePerCourt "weekday" "08:00 - 09:00" = 0
    ∧ total scAColon = 0
    ∧ getPricePerCourt "weekday" "08.00 - 09.00" = 50000
    ∧ total scAColon ≠ 50000
    ∧ (handleSubmit scAColon 1000).1 = SubmitResult.success
    ∧ (handleSubmit scAColon 1000).2.ledger
        = [("2025-11-19", [⟨"08:00|1", 1000⟩])] := by
  decide

/-- C4 as amended: with the catalog's spelling `"08.00 - 09.00"` of the
08–09 morning slot, Scenario A holds — empty ledger, Wednesday
2025-11-19, one slot, court "1": the pre-submission total is the weekday
morning rate 50000 and submission succeeds leaving exactly one record
with key `"08:00|1"` under that date. -/
theorem scenarioA_amended :
    getDayType "2025-11-19" = "weekday"
    ∧ wsCourt.date = "2025-11-19"
    ∧ wsCourt.selectedTimes = ["08.00 - 09.00"]
    ∧ wsCourt.selectedCourts = ["1"]
    ∧ total wsCourt = getPricePerCourt "weekday" "08.00 - 09.00"
    ∧ total wsCourt = 50000
    ∧ (handleSubmit wsCourt 1000).1 = SubmitResult.success
    ∧ (handleSubmit wsCourt 1000).2.ledger
        = [("2025-11-19", [⟨"08:00|1", 1000⟩])] := by
  decide

/-! ## Claim C10: duplicate-free selections -/

/-- C10.  In every reachable state both selection lists are
duplicate-free; a toggle of a present element removes every occurrence
(the `filter`), and a toggle of an absent element appends exactly one
occurrence (for courts, when the capacity and conflict guards pass). -/
theorem selections_stay_duplicate_free (L0 : BookingLedger) (s : CardState)
    (h : Reachable (initState L0) s) :
    s.selectedTimes.Nodup ∧ s.selectedCourts.Nodup
    ∧ (∀ (prev : List String) (t : String), t ∈ prev →
        toggleTimeList prev t = prev.filter (fun x => x ≠ t))
    ∧ (∀ (prev : List String) (t : String), t ∉ prev →
        toggleTimeList prev t = prev ++ [t])
    ∧ (∀ (st : CardState) (c : String), c ∈ st.selectedCourts →
        toggleCourtList st c = st.selectedCourts.filter (fun x => x ≠ c))
    ∧ (∀ (st : CardState) (c : String), c ∉ st.selectedCourts →
        st.selectedCourts.length < st.courtCount →
        st.selectedTimes.all (fun t => !(isSlotBooked st t c)) = true →
        toggleCourtList st c = st.selectedCourts ++ [c]) := by
  have hf := reachable_formOk L0 s h
  refine ⟨hf.1, hf.2.2.1, ?_, ?_, ?_, ?_⟩
  · intro prev t hm
    unfold toggleTimeList
    rw [if_pos hm]
  · intro prev t hm
    unfold toggleTimeList
    rw [if_neg hm]
  · intro st c hm
    unfold toggleCourtList
    rw [if_pos hm]
  · intro st c hm hcap hfree
    unfold toggleCourtList
    rw [if_neg hm, if_neg (not_le.mpr hcap), if_neg ?_]
    rw [List.all_eq_true] at hfree
    rw [List.any_eq_true]
    rintro ⟨t, ht, hbooked⟩
    have := hfree t ht
    rw [hbooked] at this
    cases this

/-- Witness for C10 at Scenario A's fully-selected state. -/
theorem selections_stay_duplicate_free_witness :
    wsCourt.selectedTimes.Nodup ∧ wsCourt.selectedCourts.Nodup :=
  have h := selections_stay_duplicate_free [] wsCourt reach_wsCourt
  ⟨h.1, h.2.1⟩
